import Mathlib

/-!
Verification of the session-state core of the chatbot-rag repository.

The development shallowly embeds the two stateful components the spec is
about:

* `SQLiteSessionStore` (src/app/memory/sqlite_session_store.py): a durable
  per-session message log with TTL expiry, backed by two SQLite tables.
  The tables are modelled as Lean lists of rows; SQL statements become
  list transformations translated statement by statement.  Two facts about
  the actual connection matter everywhere and are reflected faithfully:
  (1) the connection is opened with `isolation_level=None`, i.e. autocommit —
  every statement is durable on its own and the trailing `conn.commit()`
  calls are no-ops, so there is no multi-statement transaction; and
  (2) `PRAGMA foreign_keys=ON` is never issued, and SQLite leaves
  foreign-key enforcement OFF by default, so the declared
  `ON DELETE CASCADE` on `messages.session_id` never fires.
* `RAGChain` (src/app/services/rag_chain.py): an in-memory LRU cache of
  conversation pipelines held in a Python `OrderedDict`, keyed by the
  string `session_id + "_" + client_id`, plus orchestration around it.

Clock values (`time.time()`) are modelled as naturals.  Where the source
reads the clock more than once inside one operation and the difference is
observable (`cleanup_expired_sessions`), the model takes one parameter per
read; where the difference is unobservable in any claim (`get_session`'s
`last_accessed` update) a single parameter is used.
-/

namespace Rag

/-- Configuration default `session_ttl: int = 1800` (src/app/config.py, line 21). -/
def session_ttl : Nat := 1800

namespace SQLiteSessionStore

/-- One row of the `sessions` table:
`sessions(session_id PK, created_at, last_accessed, expires_at, message_count)`. -/
structure SessionRow where
  session_id : String
  created_at : Nat
  last_accessed : Nat
  expires_at : Nat
  message_count : Nat
deriving Repr, DecidableEq

/-- One row of the `messages` table:
`messages(id PK AUTOINCREMENT, session_id, role, content, timestamp)`.
The autoincrement `id` is the row's position in the list (insertion order),
so it is not stored separately. -/
structure MessageRow where
  session_id : String
  role : String
  content : String
  timestamp : Nat
deriving Repr, DecidableEq

/-- The SQLite database: the two tables, each as its list of rows in
insertion (rowid) order. -/
structure Store where
  sessions : List SessionRow
  messages : List MessageRow
deriving Repr, DecidableEq

/-- `SELECT * FROM sessions WHERE session_id = ?` (first match; `session_id`
is the primary key, so at most one row matches in any state produced by the
operations below). -/
def findSession (st : Store) (sid : String) : Option SessionRow :=
  st.sessions.find? (fun r => r.session_id = sid)

/-- `SELECT COUNT(*) FROM messages WHERE session_id = ?`. -/
def messageCount (st : Store) (sid : String) : Nat :=
  (st.messages.filter (fun m => m.session_id = sid)).length

/-- The first statement of `add_message` (lines 158–168):
`INSERT OR REPLACE INTO sessions (session_id, created_at, last_accessed,
expires_at, message_count) VALUES (?, COALESCE((SELECT created_at FROM
sessions WHERE session_id = ?), ?), ?, ?, (SELECT COUNT(*) FROM messages
WHERE session_id = ?) + 1)` with parameters
`(session_id, session_id, current_time, current_time, expires_at, session_id)`
and `expires_at = current_time + settings.session_ttl`.
`INSERT OR REPLACE` on the primary key deletes any existing row for
`session_id` and inserts the new one. -/
def upsertSession (st : Store) (sid : String) (now ttl : Nat) : Store :=
  let created_at :=
    match findSession st sid with
    | some row => row.created_at
    | none => now
  { st with
    sessions := st.sessions.filter (fun r => ¬ (r.session_id = sid)) ++
      [⟨sid, created_at, now, now + ttl, messageCount st sid + 1⟩] }

/-- The second statement of `add_message` (lines 171–174):
`INSERT INTO messages (session_id, role, content, timestamp) VALUES (?, ?, ?, ?)`. -/
def insertMessage (st : Store) (sid role content : String) (now : Nat) : Store :=
  { st with messages := st.messages ++ [⟨sid, role, content, now⟩] }

/-- Fault model for `add_message`.  The connection is in autocommit mode
(`isolation_level=None`, line 83), so each of the two statements is durable
the moment it executes; the `except` clause (lines 178–179) catches any
failure, logs it and returns normally, and the `rollback` in
`_get_connection` has nothing to roll back.  A value names the first
statement that raises, if any. -/
inductive AddFault
  | ok
  | atUpsert
  | atInsert
deriving Repr, DecidableEq

/-- `SQLiteSessionStore.add_message(session_id, role, content)`
(lines 150–179): upsert the session row, then append the message row.
The result is the durable state after the execution: the statements that
ran before the fault point (each autocommitted), with the exception
swallowed. -/
def add_message (f : AddFault) (st : Store) (sid role content : String)
    (now ttl : Nat) : Store :=
  match f with
  | .atUpsert => st
  | .atInsert => upsertSession st sid now ttl
  | .ok => insertMessage (upsertSession st sid now ttl) sid role content now

/-- The chat-history values `get_session` returns: `HumanMessage` for role
`user`, `AIMessage` for role `assistant` (lines 131–136); content carried
unchanged. -/
inductive ChatMessage
  | human (content : String)
  | ai (content : String)
deriving Repr, DecidableEq

/-- The Python conversion loop of `get_session` (lines 131–136): rows with
role `user` become `HumanMessage`, rows with role `assistant` become
`AIMessage`, rows with any other role are silently dropped. -/
def rowToChat? (r : MessageRow) : Option ChatMessage :=
  if r.role = "user" then some (.human r.content)
  else if r.role = "assistant" then some (.ai r.content)
  else none

/-- `ORDER BY timestamp ASC` over the rows in stored (rowid) order,
modelled as a stable sort. -/
def sortByTimestamp (rows : List MessageRow) : List MessageRow :=
  List.insertionSort (fun a b => a.timestamp ≤ b.timestamp) rows

/-- Fault model for `get_session`: `atCheck` makes the initial session
SELECT raise, `atMessages` makes the message SELECT raise (after the
`last_accessed` UPDATE has already autocommitted); `ok` is the failure-free run.  In every
fault case the `except` clause (lines 140–142) returns `[]`. -/
inductive ReadFault
  | ok
  | atCheck
  | atMessages
deriving Repr, DecidableEq

/-- `SQLiteSessionStore.get_session(session_id)` (lines 101–142): select the
session row with `session_id = ? AND expires_at > ?`; if none, return `[]`;
else update `last_accessed`, select this session's messages
`ORDER BY timestamp ASC`, and convert them.  Returns the history together
with the durable store state.  The source reads the clock separately for the
expiry check and the `last_accessed` update; no claim observes the
difference, so one `now` stands for both. -/
def get_session (f : ReadFault) (st : Store) (sid : String) (now : Nat) :
    List ChatMessage × Store :=
  match f with
  | .atCheck => ([], st)
  | f' =>
    match st.sessions.find? (fun r => r.session_id = sid ∧ r.expires_at > now) with
    | none => ([], st)
    | some _ =>
      let st' : Store :=
        { st with
          sessions := st.sessions.map (fun r =>
            if r.session_id = sid then { r with last_accessed := now } else r) }
      match f' with
      | .atMessages => ([], st')
      | _ =>
        let rows := sortByTimestamp (st.messages.filter (fun m => m.session_id = sid))
        (rows.filterMap rowToChat?, st')

/-- `SQLiteSessionStore.clear_session(session_id)` (lines 187–197):
`DELETE FROM sessions WHERE session_id = ?`.  The comment on line 192 says
"Messages will be deleted automatically due to CASCADE", but the connection
never enables `PRAGMA foreign_keys`, which SQLite defaults to OFF, so the
declared `ON DELETE CASCADE` is not enforced and the `messages` table is
untouched. -/
def clear_session (st : Store) (sid : String) : Store :=
  { st with sessions := st.sessions.filter (fun r => ¬ (r.session_id = sid)) }

/-- `SQLiteSessionStore.cleanup_expired_sessions()` (lines 214–239).
It reads the clock twice: `t1` for the SELECT collecting the expired ids
(line 222) and `t2` for the DELETE (line 231), with the DELETE skipped
entirely when the SELECT found nothing.  As with `clear_session`, the
DELETE does not cascade to `messages` (foreign keys are off). -/
def cleanup_expired_sessions (st : Store) (t1 t2 : Nat) : List String × Store :=
  let expired_ids := (st.sessions.filter (fun r => r.expires_at ≤ t1)).map
    (fun r => r.session_id)
  if expired_ids.isEmpty then (expired_ids, st)
  else (expired_ids,
    { st with sessions := st.sessions.filter (fun r => ¬ (r.expires_at ≤ t2)) })

/-- A batch of `add_message` calls to one session, oldest first, each
failure-free: the elements are `(timestamp, role, content)`. -/
def applyAdds (st : Store) (sid : String) (adds : List (Nat × String × String))
    (ttl : Nat) : Store :=
  adds.foldl (fun s a => add_message .ok s sid a.2.1 a.2.2 a.1 ttl) st

/-- The chat message that the round-trip claim expects `get_session` to
reproduce for a stored `(role, content)` with `role` either `user` or
`assistant`. -/
def roleMsg (role content : String) : ChatMessage :=
  if role = "user" then .human content else .ai content

end SQLiteSessionStore

namespace RAGChain

open SQLiteSessionStore

/-- The composite cache key of `_get_chain` (line 62):
`chain_key = f-string joining session_id and client_id with an underscore`,
i.e. the plain string `session_id ++ "_" ++ client_id`. -/
def chain_key (session_id client_id : String) : String :=
  session_id ++ "_" ++ client_id

/-- Python `str.startswith(pre)`, used by `clear_session` (line 180) and
`cleanup_expired_sessions` (line 196). -/
def startsWith (pre s : String) : Bool :=
  List.isPrefixOf pre.data s.data

/-- The mutable state of a `RAGChain` instance that the claims depend on:
`self.chains` is a Python `OrderedDict` — modelled as an association list in
insertion order, front = oldest / least recently used, back = newest — and
`self.max_cached_chains = settings.max_cached_sessions`.  The cached
`ConversationalRetrievalChain` objects are opaque pipeline handles; they are
modelled by distinct natural-number identities handed out by `nextChainId`,
and `constructions` counts how many times `_get_chain` has executed its
construction step (lines 77–88). -/
structure RAGState where
  max_cached_chains : Nat
  chains : List (String × Nat)
  nextChainId : Nat
  constructions : Nat
deriving Repr, DecidableEq

/-- `OrderedDict.move_to_end(key)` (line 68): the entry for `key` moves to
the most-recently-used (back) position; other entries keep their order. -/
def moveToEnd (chains : List (String × Nat)) (key : String) :
    List (String × Nat) :=
  match chains.find? (fun p => p.1 = key) with
  | none => chains
  | some p => chains.filter (fun q => ¬ (q.1 = key)) ++ [p]

/-- `RAGChain._get_chain(session_id, client_id)` (lines 60–90), the whole
body of which runs under `self._chain_lock`:
on a hit, `move_to_end` and return the cached chain; on a miss, first
evict the oldest entry via `popitem(last=False)` when
`len(self.chains) >= self.max_cached_chains`, then construct a new chain
(hydrating its memory from the session store) and insert it at the
most-recently-used position.  `popitem` on an empty `OrderedDict` raises
`KeyError` (only reachable when `max_cached_chains = 0`), modelled as
`none`; nothing has been mutated at that point.  Construction itself is
modelled as allocating the fresh identity `nextChainId`, since the chain
object is opaque to every claim. -/
def get_chain (st : RAGState) (session_id client_id : String) :
    Option (Nat × RAGState) :=
  let key := chain_key session_id client_id
  match st.chains.find? (fun p => p.1 = key) with
  | some p => some (p.2, { st with chains := moveToEnd st.chains key })
  | none =>
    let evicted? :=
      if st.chains.length ≥ st.max_cached_chains then
        match st.chains with
        | [] => none
        | _ :: rest => some rest
      else some st.chains
    match evicted? with
    | none => none
    | some remaining =>
      some (st.nextChainId,
        { st with
          chains := remaining ++ [(key, st.nextChainId)]
          nextChainId := st.nextChainId + 1
          constructions := st.constructions + 1 })

/-- Serialized execution of a batch of `_get_chain` calls.  The entire body
of `_get_chain` holds `self._chain_lock` (an `asyncio.Lock`, line 38; the
lock stays held across the awaited construction), so concurrent callers
execute their critical sections in some sequential order; `runGetChain`
folds one such order, collecting each caller's returned chain (or `none`
for the `KeyError` path, which leaves the state unmodified for the other
callers). -/
def runGetChain (st : RAGState) (calls : List (String × String)) :
    List (Option Nat) × RAGState :=
  match calls with
  | [] => ([], st)
  | c :: cs =>
    match get_chain st c.1 c.2 with
    | none =>
      let r := runGetChain st cs
      (none :: r.1, r.2)
    | some (chain, st') =>
      let r := runGetChain st' cs
      (some chain :: r.1, r.2)

/-- `RAGChain.clear_session(session_id, client_id=None)` (lines 171–187):
with a `client_id`, delete the single cache entry for
`chain_key(session_id, client_id)` if present; without one, delete every
cache entry whose key starts with `session_id + "_"`; in both cases then
call `self.session_store.clear_session(session_id)`.  Returns the updated
cache state and the updated store. -/
def clear_session (st : RAGState) (store : Store) (session_id : String)
    (client_id : Option String) : RAGState × Store :=
  let st' :=
    match client_id with
    | some cid =>
      { st with chains := st.chains.filter (fun p => ¬ (p.1 = chain_key session_id cid)) }
    | none =>
      { st with chains := st.chains.filter (fun p => ¬ (startsWith (session_id ++ "_") p.1 = true)) }
  (st', SQLiteSessionStore.clear_session store session_id)

/-- The persistence-and-reply tail of `RAGChain.get_response`'s `use_memory`
path (lines 109–164): after the chain has produced `answer`, the user and
assistant messages are persisted with `add_message` (via
`asyncio.gather` of the two `add_message_async` calls; each swallows its
own failures, so the gather cannot raise), and the response text returned
to the caller is `answer` itself. -/
def get_response (fu fa : AddFault) (store : Store)
    (session_id message answer : String) (t1 t2 ttl : Nat) : String × Store :=
  let st1 := add_message fu store session_id "user" message t1 ttl
  let st2 := add_message fa st1 session_id "assistant" answer t2 ttl
  (answer, st2)

end RAGChain

open SQLiteSessionStore

/-- After the `INSERT OR REPLACE` of `add_message`, the session row for
`sid` is exactly the freshly written row: prior rows for `sid` were
replaced, and the new row is found regardless of what else the table holds. -/
theorem findSession_upsert (st : Store) (sid : String) (now ttl : Nat) :
    findSession (upsertSession st sid now ttl) sid =
      some { session_id := sid
             created_at := match findSession st sid with
                           | some row => row.created_at
                           | none => now
             last_accessed := now
             expires_at := now + ttl
             message_count := messageCount st sid + 1 } := by
  show (st.sessions.filter _ ++ [_]).find? _ = _
  rw [List.find?_append]
  have h1 : (st.sessions.filter (fun r => ¬ (r.session_id = sid))).find?
      (fun r => (r.session_id = sid : Bool)) = none := by
    rw [List.find?_eq_none]
    intro x hx
    simp only [List.mem_filter, decide_eq_true_eq] at hx ⊢
    exact hx.2
  rw [h1, Option.none_or]
  rw [List.find?_cons_of_pos _ (by simp)]

/-- C2: the claim asserts that `add_message`'s session upsert and message
append happen in one durable unit.  The connection runs in autocommit mode
(`isolation_level=None`), so the upsert is durable on its own: when the
message `INSERT` fails (fault `atInsert`), the durable state has the
session row created with `message_count = 1` and `expires_at = now + TTL`
while the `messages` table is empty — the session row updated without the
message appended, which the claim says is impossible.  The failure-free run
does append the message. -/
theorem c2_atomicity_bug :
    (add_message .atInsert ⟨[], []⟩ "s1" "user" "hi" 0 1800).sessions =
      [⟨"s1", 0, 0, 1800, 1⟩]
    ∧ (add_message .atInsert ⟨[], []⟩ "s1" "user" "hi" 0 1800).messages = []
    ∧ (add_message .ok ⟨[], []⟩ "s1" "user" "hi" 0 1800).messages =
      [⟨"s1", "user", "hi", 0⟩] := by
  decide

/-- C3 fails as stated: `cleanup_expired_sessions` reads the clock once for
the SELECT that collects the ids to return (here `t1 = 10`) and again for
the DELETE (here `t2 = 20`).  Session `B` with `expires_at = 15` is removed
by the DELETE (15 ≤ 20) although at the first read it was not expired
(15 > 10), and it does not appear in the returned list — so the returned
ids are not the set of removed sessions, and a session with
`expires_at > now` (for the clock value the selection used) is removed. -/
theorem c3_counterexample :
    (cleanup_expired_sessions ⟨[⟨"A", 0, 0, 5, 0⟩, ⟨"B", 0, 0, 15, 0⟩], []⟩ 10 20).1
      = ["A"]
    ∧ (cleanup_expired_sessions ⟨[⟨"A", 0, 0, 5, 0⟩, ⟨"B", 0, 0, 15, 0⟩], []⟩ 10 20).2.sessions
      = []
    ∧ (["A"].elem "B") = false := by
  decide

/-- C3 (amended): when the two clock reads of `cleanup_expired_sessions`
return the same value `now` (no clock advance between the SELECT and the
DELETE), it removes exactly the sessions with `expires_at ≤ now`, keeps
exactly those with `expires_at > now`, returns exactly the removed ids, and
leaves the `messages` table unchanged. -/
theorem c3_cleanup_single_clock (st : Store) (now : Nat) :
    (cleanup_expired_sessions st now now).2.sessions
      = st.sessions.filter (fun r => now < r.expires_at)
    ∧ (cleanup_expired_sessions st now now).1
      = (st.sessions.filter (fun r => r.expires_at ≤ now)).map (fun r => r.session_id)
    ∧ (cleanup_expired_sessions st now now).2.messages = st.messages := by
  unfold cleanup_expired_sessions
  by_cases h : ((st.sessions.filter (fun r => r.expires_at ≤ now)).map
      (fun r => r.session_id)).isEmpty = true
  · have hfil : st.sessions.filter (fun r => (r.expires_at ≤ now : Bool)) = [] := by
      rw [List.isEmpty_iff, List.map_eq_nil_iff] at h
      exact h
    have hall : st.sessions.filter (fun r => (now < r.expires_at : Bool)) = st.sessions := by
      rw [List.filter_eq_self]
      intro a ha
      rw [List.filter_eq_nil_iff] at hfil
      have := hfil a ha
      simp only [decide_eq_true_eq] at this ⊢
      omega
    simp [h, hfil, hall]
  · have hcong : st.sessions.filter (fun r => ¬ (r.expires_at ≤ now))
        = st.sessions.filter (fun r => now < r.expires_at) := by
      apply List.filter_congr
      intro a _
      rw [decide_eq_decide]
      omega
    simp [h, hcong]

/-- C6: the claim (and the comment in `clear_session` itself) says deleting
a session cascades deletion of its message rows.  The schema declares
`ON DELETE CASCADE`, but the connection never issues
`PRAGMA foreign_keys=ON` and SQLite's default leaves foreign-key
enforcement off, so the cascade never fires: after adding a message to
session `s1` and clearing `s1`, the session row is gone but the message row
persists, orphaned. -/
theorem c6_orphan_messages_bug :
    SQLiteSessionStore.clear_session
        (add_message .ok ⟨[], []⟩ "s1" "user" "hi" 0 1800) "s1"
      = ⟨[], [⟨"s1", "user", "hi", 0⟩]⟩ := by
  decide

/-- C8: storage I/O failures are never surfaced.  Every failing read path of
`get_session` returns the empty history instead of raising; a failing write
leaves the `messages` table unchanged (the write is dropped, not retried —
a failure at the first statement leaves the store untouched entirely); and
`get_response`'s reply is the generated answer no matter how the two
persistence calls fail. -/
theorem c8_failures_swallowed :
    (∀ (st : Store) (sid : String) (now : Nat),
      (get_session .atCheck st sid now).1 = []
      ∧ (get_session .atMessages st sid now).1 = [])
    ∧ (∀ (st : Store) (sid role content : String) (now ttl : Nat),
      add_message .atUpsert st sid role content now ttl = st
      ∧ (add_message .atInsert st sid role content now ttl).messages = st.messages)
    ∧ (∀ (fu fa : AddFault) (store : Store) (sid msg ans : String) (t1 t2 ttl : Nat),
      (RAGChain.get_response fu fa store sid msg ans t1 t2 ttl).1 = ans) := by
  refine ⟨fun st sid now => ⟨rfl, ?_⟩, fun st sid role content now ttl => ⟨rfl, rfl⟩,
    fun _ _ _ _ _ _ _ _ _ => rfl⟩
  unfold get_session
  cases st.sessions.find? (fun r => r.session_id = sid ∧ r.expires_at > now) <;> rfl

/-- C9: expiry is sliding — every `add_message`, whether it creates the
session row or replaces an existing one, writes
`expires_at = now + session_ttl`; and in the concrete TTL = 1800 scenario,
adding at t=0 gives `expires_at = 1800`, adding again at t=1700 gives
`expires_at = 3500`, and `cleanup_expired_sessions` leaves the session
untouched at t=3000 but removes and returns it at t=3600. -/
theorem c9_sliding_expiry :
    (∀ (st : Store) (sid role content : String) (now ttl : Nat),
      (findSession (add_message .ok st sid role content now ttl) sid).map
        (fun r => r.expires_at) = some (now + ttl))
    ∧ ((findSession (add_message .ok ⟨[], []⟩ "s1" "user" "m1" 0 session_ttl) "s1").map
        (fun r => r.expires_at) = some 1800
      ∧ (findSession (add_message .ok (add_message .ok ⟨[], []⟩ "s1" "user" "m1" 0
          session_ttl) "s1" "user" "m2" 1700 session_ttl) "s1").map
        (fun r => r.expires_at) = some 3500
      ∧ (cleanup_expired_sessions (add_message .ok (add_message .ok ⟨[], []⟩ "s1" "user"
          "m1" 0 session_ttl) "s1" "user" "m2" 1700 session_ttl) 3000 3000).2.sessions
        = (add_message .ok (add_message .ok ⟨[], []⟩ "s1" "user" "m1" 0 session_ttl)
          "s1" "user" "m2" 1700 session_ttl).sessions
      ∧ (cleanup_expired_sessions (add_message .ok (add_message .ok ⟨[], []⟩ "s1" "user"
          "m1" 0 session_ttl) "s1" "user" "m2" 1700 session_ttl) 3600 3600).1 = ["s1"]
      ∧ (cleanup_expired_sessions (add_message .ok (add_message .ok ⟨[], []⟩ "s1" "user"
          "m1" 0 session_ttl) "s1" "user" "m2" 1700 session_ttl) 3600 3600).2.sessions
        = []) := by
  constructor
  · intro st sid role content now ttl
    have h : findSession (add_message .ok st sid role content now ttl) sid
        = findSession (upsertSession st sid now ttl) sid := rfl
    rw [h, findSession_upsert]
    rfl
  · exact ⟨by decide, by decide, by decide, by decide, by decide⟩

/-- C4 fails as stated: the cache key is the single string
`session_id + "_" + client_id`, and clearing without a `client_id` removes
every key with the string prefix `session_id + "_"`.  The entry cached for
session `"s1_x"` with client `"c"` has key `"s1_x_c"`, whose session
component `"s1_x"` differs from `"s1"`; yet `clear_session("s1")` removes
it, so an entry belonging to another session does not remain. -/
theorem c4_counterexample :
    (RAGChain.clear_session ⟨25, [(RAGChain.chain_key "s1_x" "c", 0)], 1, 1⟩
        ⟨[], []⟩ "s1" none).1.chains = []
    ∧ decide (("s1_x" : String) = "s1") = false := by
  decide

/-- C4 (amended): `RAGChain.clear_session(session_id)` without a client
removes exactly the cache entries whose key starts with
`session_id + "_"` — in particular every entry keyed
`chain_key session_id c` for any client `c`, but possibly also entries of a
different session whose underscore-joined key shares that prefix; with a
client it removes exactly the entry keyed `chain_key session_id client_id`;
and in both cases the session store is updated by
`SQLiteSessionStore.clear_session session_id`. -/
theorem c4_clear_session (st : RAGChain.RAGState) (store : Store) (sid : String) :
    (∀ (k : String) (c : Nat),
      (k, c) ∈ (RAGChain.clear_session st store sid none).1.chains ↔
        ((k, c) ∈ st.chains ∧ RAGChain.startsWith (sid ++ "_") k = false))
    ∧ ((RAGChain.clear_session st store sid none).1.chains.filter
        (fun p => RAGChain.startsWith (sid ++ "_") p.1) = [])
    ∧ (∀ cid : String,
      RAGChain.startsWith (sid ++ "_") (RAGChain.chain_key sid cid) = true)
    ∧ (∀ (cid k : String) (c : Nat),
      (k, c) ∈ (RAGChain.clear_session st store sid (some cid)).1.chains ↔
        ((k, c) ∈ st.chains ∧ decide (k = RAGChain.chain_key sid cid) = false))
    ∧ (∀ o : Option String,
      (RAGChain.clear_session st store sid o).2
        = SQLiteSessionStore.clear_session store sid) := by
  refine ⟨?_, ?_, ?_, ?_, ?_⟩
  · intro k c
    show (k, c) ∈ st.chains.filter _ ↔ _
    rw [List.mem_filter]
    simp
  · rw [List.filter_eq_nil_iff]
    intro p hp
    show ¬ (RAGChain.startsWith _ _ = true)
    have hmem := List.mem_filter.mp hp
    simpa using hmem.2
  · intro cid
    show List.isPrefixOf (sid ++ "_").data (sid ++ "_" ++ cid).data = true
    rw [ List.isPrefixOf_iff_prefix]
    have h : (sid ++ "_" ++ cid).data = (sid ++ "_").data ++ cid.data := by
      rw [String.data_append]
    rw [h]
    exact List.prefix_append _ _
  · intro cid k c
    show (k, c) ∈ st.chains.filter _ ↔ _
    rw [List.mem_filter]
    simp
  · intro o
    cases o <;> rfl

/-- The message table after a failure-free batch of `add_message` calls:
each call appends exactly its one row, in call order. -/
theorem applyAdds_messages (sid : String) (ttl : Nat) :
    ∀ (adds : List (Nat × String × String)) (st : Store),
    (applyAdds st sid adds ttl).messages
      = st.messages ++ adds.map (fun a => (⟨sid, a.2.1, a.2.2, a.1⟩ : MessageRow))
  | [], st => by simp [applyAdds]
  | a :: t, st => by
    show (applyAdds (add_message .ok st sid a.2.1 a.2.2 a.1 ttl) sid t ttl).messages = _
    rw [applyAdds_messages sid ttl t]
    show (st.messages ++ [⟨sid, a.2.1, a.2.2, a.1⟩]) ++ _ = _
    rw [List.append_assoc]
    rfl

/-- After a nonempty failure-free batch of `add_message` calls, the session
row exists and its `expires_at` is the last call's time plus the TTL. -/
theorem applyAdds_expires (sid : String) (ttl : Nat) :
    ∀ (adds : List (Nat × String × String)) (st : Store) (hne : adds ≠ []),
    ∃ row : SessionRow,
      findSession (applyAdds st sid adds ttl) sid = some row
      ∧ row.session_id = sid ∧ row.expires_at = (adds.getLast hne).1 + ttl
  | [], _, hne => absurd rfl hne
  | [a], st, _ => by
    have hEq : findSession (applyAdds st sid [a] ttl) sid = some
        { session_id := sid
          created_at := match findSession st sid with
                        | some r => r.created_at
                        | none => a.1
          last_accessed := a.1
          expires_at := a.1 + ttl
          message_count := messageCount st sid + 1 } := by
      show findSession (upsertSession st sid a.1 ttl) sid = _
      rw [findSession_upsert]
    exact ⟨_, hEq, rfl, rfl⟩
  | a :: b :: t, st, hne => by
    obtain ⟨row, h1, h2, h3⟩ := applyAdds_expires sid ttl (b :: t)
      (add_message .ok st sid a.2.1 a.2.2 a.1 ttl) (by simp)
    refine ⟨row, h1, h2, ?_⟩
    rw [h3]
    have e : (a :: b :: t).getLast hne = (b :: t).getLast (by simp) :=
      List.getLast_cons (by simp)
    rw [e]

/-- Rows built from a batch whose roles are all `user` or `assistant`
survive `get_session`'s conversion loop unchanged, as `HumanMessage` or
`AIMessage` with the same content. -/
theorem filterMap_rowToChat (sid : String) :
    ∀ (adds : List (Nat × String × String)),
    (∀ a ∈ adds, a.2.1 = "user" ∨ a.2.1 = "assistant") →
    (adds.map (fun a => (⟨sid, a.2.1, a.2.2, a.1⟩ : MessageRow))).filterMap rowToChat?
      = adds.map (fun a => roleMsg a.2.1 a.2.2)
  | [], _ => rfl
  | a :: t, h => by
    have ha := h a (List.mem_cons_self a t)
    have ih := filterMap_rowToChat sid t (fun x hx => h x (List.mem_cons_of_mem a hx))
    rcases ha with h1 | h1 <;>
      simp [List.filterMap_cons, rowToChat?, roleMsg, h1, ih]

/-- When the expiry-checking SELECT of a failure-free `get_session` finds a
row, the returned history is the session's messages, sorted by timestamp
and converted. -/
theorem get_session_ok_found (st : Store) (sid : String) (now : Nat)
    (r : SessionRow)
    (h : st.sessions.find? (fun q => q.session_id = sid ∧ q.expires_at > now)
      = some r) :
    (get_session .ok st sid now).1
      = (sortByTimestamp (st.messages.filter (fun m => m.session_id = sid))).filterMap
          rowToChat? := by
  unfold get_session
  rw [h]

/-- C5: round-trip — for any batch of `add_message` calls to one session
with roles in user/assistant and nondecreasing call times, a later
failure-free `get_session` on the still-unexpired session returns exactly
those messages, in timestamp order, with contents unchanged. -/
theorem c5_roundtrip (st0 : Store) (sid : String)
    (adds : List (Nat × String × String)) (tR ttl : Nat)
    (hmsg : st0.messages.filter (fun m => m.session_id = sid) = [])
    (hroles : ∀ a ∈ adds, a.2.1 = "user" ∨ a.2.1 = "assistant")
    (hsorted : (adds.map (fun a => a.1)).Pairwise (· ≤ ·))
    (hne : adds ≠ [])
    (hfresh : tR < (adds.getLast hne).1 + ttl) :
    (get_session .ok (applyAdds st0 sid adds ttl) sid tR).1
      = adds.map (fun a => roleMsg a.2.1 a.2.2) := by
  obtain ⟨row, hrow, hrsid, hrexp⟩ := applyAdds_expires sid ttl adds st0 hne
  have hmem : row ∈ (applyAdds st0 sid adds ttl).sessions :=
    List.mem_of_find?_eq_some hrow
  have hsome : ((applyAdds st0 sid adds ttl).sessions.find?
      (fun q => q.session_id = sid ∧ q.expires_at > tR)).isSome := by
    rw [List.find?_isSome]
    exact ⟨row, hmem, by simp [hrsid, hrexp]; omega⟩
  obtain ⟨r', hr'⟩ := Option.isSome_iff_exists.mp hsome
  rw [get_session_ok_found _ _ _ r' hr']
  rw [applyAdds_messages]
  rw [List.filter_append, hmsg, List.nil_append]
  have hfiltall : (adds.map (fun a => (⟨sid, a.2.1, a.2.2, a.1⟩ : MessageRow))).filter
      (fun m => m.session_id = sid) = adds.map (fun a => ⟨sid, a.2.1, a.2.2, a.1⟩) := by
    rw [List.filter_eq_self]
    intro x hx
    obtain ⟨a, _, rfl⟩ := List.mem_map.mp hx
    simp
  rw [hfiltall]
  have hsorted' : List.Sorted (fun a b : MessageRow => a.timestamp ≤ b.timestamp)
      (adds.map (fun a => (⟨sid, a.2.1, a.2.2, a.1⟩ : MessageRow))) :=
    List.pairwise_map.mpr (List.pairwise_map.mp hsorted)
  have hsortid : sortByTimestamp (adds.map (fun a => (⟨sid, a.2.1, a.2.2, a.1⟩ : MessageRow)))
      = adds.map (fun a => ⟨sid, a.2.1, a.2.2, a.1⟩) :=
    List.Sorted.insertionSort_eq hsorted'
  rw [hsortid]
  exact filterMap_rowToChat sid adds hroles

/-- C5 witness: two concrete messages round-trip through the store. -/
theorem c5_roundtrip_witness :
    (get_session .ok
        (applyAdds ⟨[], []⟩ "s1" [(1, "user", "hi"), (2, "assistant", "yo")] 1800)
        "s1" 5).1
      = [ChatMessage.human "hi", ChatMessage.ai "yo"] :=
  c5_roundtrip ⟨[], []⟩ "s1" [(1, "user", "hi"), (2, "assistant", "yo")] 5 1800
    (by decide) (by decide) (by decide) (by decide) (by decide)

/-- C10: frame property of `add_message` — for a session that already has a
row, the upsert's `COALESCE` carries the existing `created_at` over, and no
session row or message row of any other session is touched, under every
fault mode. -/
theorem c10_add_message_frame (st : Store) (sid role content : String)
    (now ttl : Nat) (f : AddFault) (sid' : String) (row : SessionRow)
    (hrow : findSession st sid = some row) (hne : ¬ (sid' = sid)) :
    (findSession (add_message f st sid role content now ttl) sid).map
        (fun r => r.created_at) = some row.created_at
    ∧ (add_message f st sid role content now ttl).sessions.filter
        (fun r => r.session_id = sid')
      = st.sessions.filter (fun r => r.session_id = sid')
    ∧ (add_message f st sid role content now ttl).messages.filter
        (fun m => m.session_id = sid')
      = st.messages.filter (fun m => m.session_id = sid') := by
  have hne' : ¬ (sid = sid') := fun h => hne h.symm
  have hsess : ∀ (l : List SessionRow) (r0 : SessionRow), r0.session_id = sid →
      (l.filter (fun r => ¬ (r.session_id = sid)) ++ [r0]).filter
        (fun r => r.session_id = sid')
      = l.filter (fun r => r.session_id = sid') := by
    intro l r0 hr0
    rw [List.filter_append]
    have h2 : [r0].filter (fun r => (r.session_id = sid' : Bool)) = [] := by
      simp [hr0, hne']
    rw [h2, List.append_nil, List.filter_filter]
    apply List.filter_congr
    intro a _
    by_cases h : a.session_id = sid' <;> simp [h, hne]
  have hmsg2 : (st.messages ++ [(⟨sid, role, content, now⟩ : MessageRow)]).filter
      (fun m => m.session_id = sid')
      = st.messages.filter (fun m => m.session_id = sid') := by
    rw [List.filter_append]
    have h2 : [(⟨sid, role, content, now⟩ : MessageRow)].filter
        (fun m => (m.session_id = sid' : Bool)) = [] := by
      simp [hne']
    rw [h2, List.append_nil]
  have hcreated : (findSession (upsertSession st sid now ttl) sid).map
      (fun r => r.created_at) = some row.created_at := by
    rw [findSession_upsert, hrow]
    rfl
  cases f with
  | atUpsert =>
    refine ⟨?_, rfl, rfl⟩
    show (findSession st sid).map (fun r => r.created_at) = some row.created_at
    rw [hrow]
    rfl
  | atInsert => exact ⟨hcreated, hsess st.sessions _ rfl, rfl⟩
  | ok => exact ⟨hcreated, hsess st.sessions _ rfl, hmsg2⟩

/-- C10 witness: adding to existing session `s1` keeps its `created_at` = 5
and leaves session `s2`'s row and message untouched. -/
theorem c10_add_message_frame_witness :
    (findSession (add_message .ok
        ⟨[⟨"s1", 5, 5, 100, 1⟩, ⟨"s2", 7, 7, 200, 1⟩],
         [⟨"s1", "user", "a", 5⟩, ⟨"s2", "user", "b", 6⟩]⟩
        "s1" "user" "x" 50 1800) "s1").map (fun r => r.created_at) = some 5
    ∧ (add_message .ok
        ⟨[⟨"s1", 5, 5, 100, 1⟩, ⟨"s2", 7, 7, 200, 1⟩],
         [⟨"s1", "user", "a", 5⟩, ⟨"s2", "user", "b", 6⟩]⟩
        "s1" "user" "x" 50 1800).sessions.filter (fun r => r.session_id = "s2")
      = [⟨"s2", 7, 7, 200, 1⟩]
    ∧ (add_message .ok
        ⟨[⟨"s1", 5, 5, 100, 1⟩, ⟨"s2", 7, 7, 200, 1⟩],
         [⟨"s1", "user", "a", 5⟩, ⟨"s2", "user", "b", 6⟩]⟩
        "s1" "user" "x" 50 1800).messages.filter (fun m => m.session_id = "s2")
      = [⟨"s2", "user", "b", 6⟩] :=
  c10_add_message_frame
    ⟨[⟨"s1", 5, 5, 100, 1⟩, ⟨"s2", 7, 7, 200, 1⟩],
     [⟨"s1", "user", "a", 5⟩, ⟨"s2", "user", "b", 6⟩]⟩
    "s1" "user" "x" 50 1800 .ok "s2" ⟨"s1", 5, 5, 100, 1⟩ (by decide) (by decide)

namespace RAGChain

/-- `find?` by key returns nothing when the key is absent from the
association list. -/
theorem find?_key_eq_none (l : List (String × Nat)) (key : String)
    (h : ¬ key ∈ l.map Prod.fst) :
    l.find? (fun q => q.1 = key) = none := by
  rw [List.find?_eq_none]
  intro x hx
  simp only [decide_eq_true_eq]
  intro hx1
  exact h (List.mem_map.mpr ⟨x, hx, hx1⟩)

/-- `find?` by key on a list ending in that key finds the final entry when
the key is absent earlier. -/
theorem find?_key_append (l : List (String × Nat)) (key : String) (v : Nat)
    (h : ¬ key ∈ l.map Prod.fst) :
    (l ++ [(key, v)]).find? (fun q => q.1 = key) = some (key, v) := by
  rw [List.find?_append, find?_key_eq_none l key h, Option.none_or]
  rw [List.find?_cons_of_pos _ (by simp)]

/-- Removing the entries with a given key removes the key from the key
column. -/
theorem key_notin_filter (l : List (String × Nat)) (key : String) :
    ¬ key ∈ (l.filter (fun q => ¬ (q.1 = key))).map Prod.fst := by
  intro h
  obtain ⟨q, hq, hq1⟩ := List.mem_map.mp h
  have h2 := (List.mem_filter.mp hq).2
  simp only [decide_eq_true_eq] at h2
  exact h2 hq1

/-- Filtering out an absent key is the identity. -/
theorem notin_fst_filter_id (l : List (String × Nat)) (key : String)
    (h : ¬ key ∈ l.map Prod.fst) :
    l.filter (fun q => ¬ (q.1 = key)) = l := by
  rw [List.filter_eq_self]
  intro a ha
  simp only [decide_eq_true_eq]
  intro hak
  exact h (List.mem_map.mpr ⟨a, ha, hak⟩)

/-- `move_to_end` on a present key: the found entry is removed from its
position and appended. -/
theorem moveToEnd_of_find? (l : List (String × Nat)) (key : String)
    (p : String × Nat) (hfind : l.find? (fun q => q.1 = key) = some p) :
    moveToEnd l key = l.filter (fun q => ¬ (q.1 = key)) ++ [p] := by
  unfold moveToEnd
  rw [hfind]

/-- After `move_to_end`, the key still maps to the same entry. -/
theorem find?_moveToEnd (l : List (String × Nat)) (key : String)
    (p : String × Nat) (hfind : l.find? (fun q => q.1 = key) = some p) :
    (moveToEnd l key).find? (fun q => q.1 = key) = some p := by
  obtain ⟨p1, p2⟩ := p
  have hp1 : p1 = key := by
    have := List.find?_some hfind
    simpa using this
  subst hp1
  rw [moveToEnd_of_find? l p1 (p1, p2) hfind]
  exact find?_key_append _ p1 p2 (key_notin_filter l p1)

/-- `_get_chain` on a cache hit: promote to most-recently-used, return the
cached chain, construct nothing. -/
theorem get_chain_hit (st : RAGState) (s c : String) (p : String × Nat)
    (hfind : st.chains.find? (fun q => q.1 = chain_key s c) = some p) :
    get_chain st s c
      = some (p.2, { st with chains := moveToEnd st.chains (chain_key s c) }) := by
  simp only [get_chain]
  rw [hfind]

/-- `_get_chain` on a miss with spare capacity: construct and append. -/
theorem get_chain_fresh_space (st : RAGState) (s c : String)
    (hfind : st.chains.find? (fun q => q.1 = chain_key s c) = none)
    (hspace : st.chains.length < st.max_cached_chains) :
    get_chain st s c = some (st.nextChainId,
      { st with
        chains := st.chains ++ [(chain_key s c, st.nextChainId)]
        nextChainId := st.nextChainId + 1
        constructions := st.constructions + 1 }) := by
  simp only [get_chain]
  rw [hfind, if_neg (by omega)]

/-- `_get_chain` on a miss at capacity with a nonempty cache: evict the
least-recently-used entry, then construct and append. -/
theorem get_chain_fresh_full (st : RAGState) (s c : String)
    (e : String × Nat) (rest : List (String × Nat))
    (hfind : st.chains.find? (fun q => q.1 = chain_key s c) = none)
    (hchains : st.chains = e :: rest)
    (hfull : st.max_cached_chains ≤ st.chains.length) :
    get_chain st s c = some (st.nextChainId,
      { st with
        chains := rest ++ [(chain_key s c, st.nextChainId)]
        nextChainId := st.nextChainId + 1
        constructions := st.constructions + 1 }) := by
  simp only [get_chain]
  rw [hfind, if_pos hfull, hchains]

/-- `_get_chain` on a miss at capacity zero: `popitem` on the empty
`OrderedDict` raises `KeyError` before any mutation. -/
theorem get_chain_empty_full (st : RAGState) (s c : String)
    (hfind : st.chains.find? (fun q => q.1 = chain_key s c) = none)
    (hchains : st.chains = [])
    (hfull : st.max_cached_chains ≤ st.chains.length) :
    get_chain st s c = none := by
  simp only [get_chain]
  rw [hfind, if_pos hfull, hchains]

/-- One step of the serialized batch, scrutinizing the head call. -/
theorem runGetChain_cons (st : RAGState) (c : String × String)
    (cs : List (String × String)) :
    runGetChain st (c :: cs)
      = match get_chain st c.1 c.2 with
        | none => ((none : Option Nat) :: (runGetChain st cs).1, (runGetChain st cs).2)
        | some r => (some r.1 :: (runGetChain r.2 cs).1, (runGetChain r.2 cs).2) := by
  show (match get_chain st c.1 c.2 with
        | none =>
          let r := runGetChain st cs
          ((none : Option Nat) :: r.1, r.2)
        | some (chain, st') =>
          let r := runGetChain st' cs
          (some chain :: r.1, r.2)) = _
  cases get_chain st c.1 c.2 with
  | none => rfl
  | some r => rfl

/-- One step of the serialized batch for an explicit `(session, client)`
pair. -/
theorem runGetChain_cons2 (st : RAGState) (s c : String)
    (cs : List (String × String)) :
    runGetChain st ((s, c) :: cs)
      = match get_chain st s c with
        | none => ((none : Option Nat) :: (runGetChain st cs).1, (runGetChain st cs).2)
        | some r => (some r.1 :: (runGetChain r.2 cs).1, (runGetChain r.2 cs).2) :=
  runGetChain_cons st (s, c) cs

/-- A serialized batch of identical calls against a cache whose key already
maps to `(key, v)` consists purely of hits: every caller receives `v` and no
construction happens. -/
theorem runGetChain_hits :
    ∀ (m : Nat) (st : RAGState) (s c : String) (v : Nat),
    st.chains.find? (fun q => q.1 = chain_key s c) = some (chain_key s c, v) →
    (runGetChain st (List.replicate m (s, c))).1 = List.replicate m (some v)
    ∧ (runGetChain st (List.replicate m (s, c))).2.constructions
      = st.constructions
  | 0, _, _, _, _, _ => ⟨rfl, rfl⟩
  | m + 1, st, s, c, v, h => by
    have hg := get_chain_hit st s c (chain_key s c, v) h
    have hmove := find?_moveToEnd st.chains (chain_key s c) (chain_key s c, v) h
    obtain ⟨ih1, ih2⟩ := runGetChain_hits m
      { st with chains := moveToEnd st.chains (chain_key s c) } s c v hmove
    rw [List.replicate_succ (α := String × String)]
    constructor
    · rw [runGetChain_cons2, hg]
      show some v :: _ = _
      rw [ih1, List.replicate_succ]
    · rw [runGetChain_cons2, hg]
      exact ih2

/-- Running a batch of pairwise-distinct never-cached keys through the
serialized cache: the final key column is the sliding window of the most
recent `max_cached_chains` keys of the whole access stream. -/
theorem runGetChain_fresh_keys :
    ∀ (ps : List (String × String)) (st : RAGState),
    1 ≤ st.max_cached_chains →
    st.chains.length ≤ st.max_cached_chains →
    (st.chains.map Prod.fst ++ ps.map (fun p => chain_key p.1 p.2)).Nodup →
    (runGetChain st ps).2.chains.map Prod.fst
      = (st.chains.map Prod.fst ++ ps.map (fun p => chain_key p.1 p.2)).drop
          (st.chains.length + ps.length - st.max_cached_chains)
  | [], st, _, h2, _ => by
    show st.chains.map Prod.fst = _
    simp only [List.map_nil, List.append_nil, List.length_nil, Nat.add_zero]
    rw [Nat.sub_eq_zero_of_le h2, List.drop_zero]
  | p :: ps', st, h1, h2, h3 => by
    have hkey : ¬ chain_key p.1 p.2 ∈ st.chains.map Prod.fst := by
      intro hmem
      have hdisj := List.disjoint_of_nodup_append h3
      exact hdisj hmem (List.mem_cons_self _ _)
    have hfind := find?_key_eq_none st.chains (chain_key p.1 p.2) hkey
    by_cases hsp : st.chains.length < st.max_cached_chains
    · have hg := get_chain_fresh_space st p.1 p.2 hfind hsp
      have ih := runGetChain_fresh_keys ps'
        { st with
          chains := st.chains ++ [(chain_key p.1 p.2, st.nextChainId)]
          nextChainId := st.nextChainId + 1
          constructions := st.constructions + 1 }
        h1 (by simp; omega)
        (by
          show ((st.chains ++ [(chain_key p.1 p.2, st.nextChainId)]).map Prod.fst
            ++ ps'.map (fun q => chain_key q.1 q.2)).Nodup
          rw [List.map_append]
          simpa [List.append_assoc] using h3)
      rw [runGetChain_cons, hg]
      show (runGetChain _ ps').2.chains.map Prod.fst = _
      rw [ih]
      rw [List.map_append]
      have hidx : (st.chains ++ [(chain_key p.1 p.2, st.nextChainId)]).length
            + ps'.length - st.max_cached_chains
          = st.chains.length + (p :: ps').length - st.max_cached_chains := by
        simp [List.length_append]
        omega
      rw [hidx]
      congr 1
      simp
    · have hfull : st.max_cached_chains ≤ st.chains.length := Nat.le_of_not_lt hsp
      cases hch : st.chains with
      | nil =>
        exfalso
        rw [hch] at hfull
        simp at hfull
        omega
      | cons e rest =>
        have hg := get_chain_fresh_full st p.1 p.2 e rest hfind hch hfull
        have hlenrest : st.chains.length = rest.length + 1 := by
          rw [hch]
          rfl
        have hA : st.chains.map Prod.fst = e.1 :: rest.map Prod.fst := by
          rw [hch]
          rfl
        have ih := runGetChain_fresh_keys ps'
          { st with
            chains := rest ++ [(chain_key p.1 p.2, st.nextChainId)]
            nextChainId := st.nextChainId + 1
            constructions := st.constructions + 1 }
          h1 (by simp; omega)
          (by
            show ((rest ++ [(chain_key p.1 p.2, st.nextChainId)]).map Prod.fst
              ++ ps'.map (fun q => chain_key q.1 q.2)).Nodup
            rw [List.map_append]
            have hsub : List.Sublist
                ((rest.map Prod.fst ++ [chain_key p.1 p.2])
                  ++ ps'.map (fun q => chain_key q.1 q.2))
                (st.chains.map Prod.fst
                  ++ (p :: ps').map (fun q => chain_key q.1 q.2)) := by
              rw [hA]
              show List.Sublist
                ((rest.map Prod.fst ++ [chain_key p.1 p.2])
                  ++ ps'.map (fun q => chain_key q.1 q.2))
                (e.1 :: (rest.map Prod.fst
                  ++ chain_key p.1 p.2 :: ps'.map (fun q => chain_key q.1 q.2)))
              have : (rest.map Prod.fst ++ [chain_key p.1 p.2])
                  ++ ps'.map (fun q => chain_key q.1 q.2)
                  = rest.map Prod.fst
                    ++ chain_key p.1 p.2 :: ps'.map (fun q => chain_key q.1 q.2) := by
                simp
              rw [this]
              exact List.sublist_cons_self _ _
            exact List.Nodup.sublist hsub h3)
        rw [runGetChain_cons, hg]
        show (runGetChain _ ps').2.chains.map Prod.fst = _
        rw [ih, List.map_append]
        have hI2 : (e :: rest : List (String × Nat)).length + (p :: ps').length
              - st.max_cached_chains
            = ((rest ++ [(chain_key p.1 p.2, st.nextChainId)]).length + ps'.length
              - st.max_cached_chains) + 1 := by
          simp [List.length_append]
          omega
        rw [hI2]
        show _ = List.drop _ (e.1 :: (rest.map Prod.fst
            ++ (p :: ps').map (fun q => chain_key q.1 q.2)))
        rw [List.drop_succ_cons]
        congr 1
        simp

end RAGChain

open RAGChain in
/-- C1: the pipeline cache is a strict LRU of bounded size:
(1) `_get_chain` never grows the cache beyond `max_cached_chains`;
(2) with the cache at capacity holding `[k1 oldest, k2, …]`, a hit on `k1`
followed by a miss on a new key evicts `k2` and keeps `k1` (true LRU with
promotion on hit, not FIFO), leaving the cache at capacity;
(3) accessing `N+1` distinct fresh keys in order through a capacity-`N`
cache evicts the first key and keeps the remaining `N`. -/
theorem c1_lru_cache :
    (∀ (st : RAGState) (s c : String) (r : Nat × RAGState),
      st.chains.length ≤ st.max_cached_chains →
      get_chain st s c = some r →
      r.2.chains.length ≤ st.max_cached_chains)
    ∧ (∀ (k1e k2e : String × Nat) (rest : List (String × Nat)) (n0 c0 : Nat)
        (s1 c1 s2 c2 : String),
      ((k1e :: k2e :: rest).map Prod.fst).Nodup →
      chain_key s1 c1 = k1e.1 →
      ¬ chain_key s2 c2 ∈ (k1e :: k2e :: rest).map Prod.fst →
      ∃ st1 st2 : RAGState,
        get_chain ⟨2 + rest.length, k1e :: k2e :: rest, n0, c0⟩ s1 c1
          = some (k1e.2, st1)
        ∧ get_chain st1 s2 c2 = some (n0, st2)
        ∧ st2.chains = rest ++ [k1e, (chain_key s2 c2, n0)]
        ∧ k1e.1 ∈ st2.chains.map Prod.fst
        ∧ ¬ k2e.1 ∈ st2.chains.map Prod.fst
        ∧ st2.chains.length = 2 + rest.length)
    ∧ (∀ (p0 : String × String) (ps : List (String × String)) (n0 c0 : Nat),
      ((p0 :: ps).map (fun p => chain_key p.1 p.2)).Nodup →
      1 ≤ ps.length →
      ¬ chain_key p0.1 p0.2 ∈
        (runGetChain ⟨ps.length, [], n0, c0⟩ (p0 :: ps)).2.chains.map Prod.fst
      ∧ ∀ p ∈ ps, chain_key p.1 p.2 ∈
        (runGetChain ⟨ps.length, [], n0, c0⟩ (p0 :: ps)).2.chains.map Prod.fst) := by
  refine ⟨?_, ?_, ?_⟩
  · -- (1) boundedness
    intro st s c r hlen heq
    rcases hfind : st.chains.find? (fun q => q.1 = chain_key s c) with _ | p
    · by_cases hsp : st.chains.length < st.max_cached_chains
      · rw [get_chain_fresh_space st s c hfind hsp] at heq
        injection heq with h
        subst h
        show (st.chains ++ [(chain_key s c, st.nextChainId)]).length ≤ _
        simp only [List.length_append, List.length_cons, List.length_nil]
        omega
      · have hfull : st.max_cached_chains ≤ st.chains.length := Nat.le_of_not_lt hsp
        cases hch : st.chains with
        | nil =>
          rw [get_chain_empty_full st s c hfind hch (by rw [hch] at hfull ⊢; exact hfull)]
            at heq
          cases heq
        | cons e rest =>
          rw [get_chain_fresh_full st s c e rest hfind hch
            (by rw [hch] at hfull ⊢; exact hfull)] at heq
          injection heq with h
          subst h
          show (rest ++ [(chain_key s c, st.nextChainId)]).length ≤ _
          simp only [List.length_append, List.length_cons, List.length_nil]
          have := congrArg List.length hch
          simp at this
          omega
    · rw [get_chain_hit st s c p hfind] at heq
      injection heq with h
      subst h
      show (moveToEnd st.chains (chain_key s c)).length ≤ _
      rw [moveToEnd_of_find? st.chains (chain_key s c) p hfind, List.length_append]
      have hlt : (st.chains.filter (fun q => ¬ (q.1 = chain_key s c))).length
          < st.chains.length := by
        apply List.length_filter_lt_length_iff_exists.mpr
        refine ⟨p, List.mem_of_find?_eq_some hfind, ?_⟩
        have hp := List.find?_some hfind
        simp only [decide_eq_true_eq] at hp
        simp [hp]
      simp only [List.length_cons, List.length_nil]
      omega
  · -- (2) true LRU, not FIFO
    intro k1e k2e rest n0 c0 s1 c1 s2 c2 h3 hk1 hk2
    have h31 : ¬ k1e.1 ∈ (k2e.1 :: rest.map Prod.fst) := (List.nodup_cons.mp h3).1
    have h32 : ¬ k2e.1 ∈ rest.map Prod.fst :=
      (List.nodup_cons.mp (List.nodup_cons.mp h3).2).1
    have hfind1 : (k1e :: k2e :: rest).find? (fun q => q.1 = chain_key s1 c1)
        = some k1e := List.find?_cons_of_pos _ (by simp [hk1])
    have hmove : moveToEnd (k1e :: k2e :: rest) (chain_key s1 c1)
        = (k2e :: rest) ++ [k1e] := by
      rw [moveToEnd_of_find? _ _ k1e hfind1]
      congr 1
      rw [List.filter_cons, if_neg (by simp [hk1])]
      apply notin_fst_filter_id
      rw [← hk1] at h31
      exact h31
    have hg1 : get_chain ⟨2 + rest.length, k1e :: k2e :: rest, n0, c0⟩ s1 c1
        = some (k1e.2, ⟨2 + rest.length, (k2e :: rest) ++ [k1e], n0, c0⟩) := by
      rw [get_chain_hit ⟨2 + rest.length, k1e :: k2e :: rest, n0, c0⟩ s1 c1 k1e hfind1]
      rw [show moveToEnd (⟨2 + rest.length, k1e :: k2e :: rest, n0, c0⟩ :
        RAGState).chains (chain_key s1 c1) = (k2e :: rest) ++ [k1e] from hmove]
    have hnot2 : ¬ chain_key s2 c2 ∈ ((k2e :: rest) ++ [k1e]).map Prod.fst := by
      intro h
      rw [List.map_append] at h
      rcases List.mem_append.mp h with h' | h'
      · exact hk2 (List.mem_cons_of_mem _ h')
      · have h1 : chain_key s2 c2 = k1e.1 := List.mem_singleton.mp h'
        exact hk2 (by rw [h1]; simp)
    have hfind2 : ((k2e :: rest) ++ [k1e]).find? (fun q => q.1 = chain_key s2 c2)
        = none := find?_key_eq_none _ _ hnot2
    have hg2 : get_chain ⟨2 + rest.length, (k2e :: rest) ++ [k1e], n0, c0⟩ s2 c2
        = some (n0, ⟨2 + rest.length, (rest ++ [k1e]) ++ [(chain_key s2 c2, n0)],
            n0 + 1, c0 + 1⟩) := by
      exact get_chain_fresh_full _ s2 c2 k2e (rest ++ [k1e]) hfind2 rfl
        (by show 2 + rest.length ≤ ((k2e :: rest) ++ [k1e]).length
            rw [List.length_append]
            simp
            omega)
    refine ⟨_, _, hg1, hg2, ?_, ?_, ?_, ?_⟩
    · show (rest ++ [k1e]) ++ [(chain_key s2 c2, n0)] = rest ++ [k1e, (chain_key s2 c2, n0)]
      rw [List.append_assoc]
      rfl
    · show k1e.1 ∈ ((rest ++ [k1e]) ++ [(chain_key s2 c2, n0)]).map Prod.fst
      simp
    · show ¬ k2e.1 ∈ ((rest ++ [k1e]) ++ [(chain_key s2 c2, n0)]).map Prod.fst
      intro h
      simp only [List.map_append, List.mem_append] at h
      rcases h with (h' | h') | h'
      · exact h32 h'
      · have h1 : k2e.1 = k1e.1 := List.mem_singleton.mp h'
        exact h31 (by rw [h1]; exact List.mem_cons_self _ _)
      · have h1 : k2e.1 = chain_key s2 c2 := by simpa using h'
        exact hk2 (by rw [← h1]; simp)
    · show ((rest ++ [k1e]) ++ [(chain_key s2 c2, n0)]).length = 2 + rest.length
      simp [List.length_append]
      omega
  · -- (3) N+1 distinct keys through a capacity-N cache
    intro p0 ps n0 c0 hnodup hlen
    have hrun := runGetChain_fresh_keys (p0 :: ps) ⟨ps.length, [], n0, c0⟩
      hlen (by simp) (by simpa using hnodup)
    have hkeys : (runGetChain ⟨ps.length, [], n0, c0⟩ (p0 :: ps)).2.chains.map Prod.fst
        = ps.map (fun p => chain_key p.1 p.2) := by
      rw [hrun]
      show ((p0 :: ps).map (fun p => chain_key p.1 p.2)).drop
        (0 + (p0 :: ps).length - ps.length) = _
      have h1 : 0 + (p0 :: ps).length - ps.length = 1 := by
        simp
      rw [h1]
      rfl
    rw [hkeys]
    constructor
    · exact (List.nodup_cons.mp hnodup).1
    · intro p hp
      exact List.mem_map.mpr ⟨p, hp, rfl⟩

open RAGChain in
/-- C1 witness: a capacity-1 cache stays within bound on a miss; with a
capacity-2 cache holding `s_a` (oldest) and `s_b`, hitting `s_a` then
inserting `s_c` evicts `s_b` and keeps `s_a`; and keys `s_a`, `s_b` driven
through a capacity-1 cache evict `s_a` and keep `s_b`. -/
theorem c1_lru_cache_witness :
    ((0, (⟨1, [("s_a", 0)], 1, 1⟩ : RAGState)) : Nat × RAGState).2.chains.length
      ≤ (⟨1, [], 0, 0⟩ : RAGState).max_cached_chains
    ∧ (∃ st1 st2 : RAGState,
        get_chain ⟨2, [("s_a", 10), ("s_b", 11)], 12, 2⟩ "s" "a"
          = some (10, st1)
        ∧ get_chain st1 "s" "c" = some (12, st2)
        ∧ st2.chains = [] ++ [("s_a", 10), (chain_key "s" "c", 12)]
        ∧ "s_a" ∈ st2.chains.map Prod.fst
        ∧ ¬ "s_b" ∈ st2.chains.map Prod.fst
        ∧ st2.chains.length = 2 + ([] : List (String × Nat)).length)
    ∧ (¬ chain_key "s" "a" ∈
        (runGetChain ⟨1, [], 0, 0⟩ [("s", "a"), ("s", "b")]).2.chains.map Prod.fst
      ∧ ∀ p ∈ [(("s" : String), ("b" : String))], chain_key p.1 p.2 ∈
        (runGetChain ⟨1, [], 0, 0⟩ [("s", "a"), ("s", "b")]).2.chains.map Prod.fst) :=
  ⟨c1_lru_cache.1 ⟨1, [], 0, 0⟩ "s" "a" (0, ⟨1, [("s_a", 0)], 1, 1⟩)
      (by decide) (by decide),
   c1_lru_cache.2.1 ("s_a", 10) ("s_b", 11) [] 12 2 "s" "a" "s" "c"
      (by decide) (by decide) (by decide),
   c1_lru_cache.2.2 ("s", "a") [("s", "b")] 0 0 (by decide) (by decide)⟩

open RAGChain in
/-- C7: concurrent `_get_chain` calls for one never-yet-cached key.  The
whole body of `_get_chain` runs under `self._chain_lock`, so the callers'
critical sections execute in some serial order, modelled by `runGetChain`;
for any number `n ≥ 1` of callers on a cache that does not hold the key
(and has room to operate), exactly one construction occurs and every caller
receives the same chain — the one built by the first call. -/
theorem c7_single_construction (st : RAGState) (s c : String) (n : Nat)
    (hfresh : ¬ chain_key s c ∈ st.chains.map Prod.fst)
    (hmax : 1 ≤ st.max_cached_chains)
    (hlen : st.chains.length ≤ st.max_cached_chains)
    (hn : 1 ≤ n) :
    (runGetChain st (List.replicate n (s, c))).1
      = List.replicate n (some st.nextChainId)
    ∧ (runGetChain st (List.replicate n (s, c))).2.constructions
      = st.constructions + 1 := by
  obtain ⟨m, rfl⟩ : ∃ m, n = m + 1 := ⟨n - 1, by omega⟩
  have hfind := find?_key_eq_none st.chains (chain_key s c) hfresh
  by_cases hsp : st.chains.length < st.max_cached_chains
  · have hg := get_chain_fresh_space st s c hfind hsp
    have hafter : (st.chains ++ [(chain_key s c, st.nextChainId)]).find?
        (fun q => q.1 = chain_key s c) = some (chain_key s c, st.nextChainId) :=
      find?_key_append st.chains (chain_key s c) st.nextChainId hfresh
    obtain ⟨ih1, ih2⟩ := runGetChain_hits m
      { st with
        chains := st.chains ++ [(chain_key s c, st.nextChainId)]
        nextChainId := st.nextChainId + 1
        constructions := st.constructions + 1 }
      s c st.nextChainId hafter
    rw [List.replicate_succ (α := String × String)]
    constructor
    · rw [runGetChain_cons2, hg]
      show some st.nextChainId :: _ = _
      rw [ih1, List.replicate_succ]
    · rw [runGetChain_cons2, hg]
      exact ih2
  · have hfull : st.max_cached_chains ≤ st.chains.length := Nat.le_of_not_lt hsp
    cases hch : st.chains with
    | nil =>
      exfalso
      rw [hch] at hfull
      simp at hfull
      omega
    | cons e rest =>
      have hg := get_chain_fresh_full st s c e rest hfind hch hfull
      have hfresh' : ¬ chain_key s c ∈ rest.map Prod.fst := by
        rw [hch] at hfresh
        intro h
        exact hfresh (List.mem_cons_of_mem _ h)
      have hafter : (rest ++ [(chain_key s c, st.nextChainId)]).find?
          (fun q => q.1 = chain_key s c) = some (chain_key s c, st.nextChainId) :=
        find?_key_append rest (chain_key s c) st.nextChainId hfresh'
      obtain ⟨ih1, ih2⟩ := runGetChain_hits m
        { st with
          chains := rest ++ [(chain_key s c, st.nextChainId)]
          nextChainId := st.nextChainId + 1
          constructions := st.constructions + 1 }
        s c st.nextChainId hafter
      rw [List.replicate_succ (α := String × String)]
      constructor
      · rw [runGetChain_cons2, hg]
        show some st.nextChainId :: _ = _
        rw [ih1, List.replicate_succ]
      · rw [runGetChain_cons2, hg]
        exact ih2

open RAGChain in
/-- C7 witness: three serialized callers for the same fresh key on an empty
capacity-1 cache all receive chain `0`, and exactly one construction
happens. -/
theorem c7_single_construction_witness :
    (runGetChain ⟨1, [], 0, 0⟩ (List.replicate 3 ("s", "a"))).1
      = List.replicate 3 (some 0)
    ∧ (runGetChain ⟨1, [], 0, 0⟩ (List.replicate 3 ("s", "a"))).2.constructions
      = 0 + 1 :=
  c7_single_construction ⟨1, [], 0, 0⟩ "s" "a" 3
    (by decide) (by decide) (by decide) (by decide)

end Rag
